import Mathlib

/-!
Verification of the ICAIS2025 paper-review service (retrieval-enabled variant).

This file gives a shallow embedding, in Lean, of the pure decision logic of the
service: the parsed-document dictionary and its derived flags
(`paper_analyzer.py`), the query builder and the two key-term extractors
(`paper_analyzer.py`), the retrieval-skip policy (`api_service.py`), the
fusion/dedup and re-ranking steps of the retriever (`retriever.py`), the
heartbeat task runner (`api_service.py`), and the outer SSE stream wrapper with
its global deadline (`api_service.py`).

Modelling conventions, used throughout:

* A Python `dict[str, str]` is an association list `List (String × String)`
  with first-match lookup (Python dict keys are unique, so first-match agrees
  with dict lookup); `dict.get` is `dictGet?`, `k in d` is `hasKey`.
* Python string truthiness (`if s:`) is `s ≠ ""`; `None` is `Option.none`.
* `str.lower()` is modelled as ASCII lower-casing (`lowerChar`); `str.strip()`
  and `\s` use `Char.isWhitespace`.  These agree with Python on ASCII input;
  divergence is possible only on exotic Unicode case folds, which none of the
  verified properties depend on.
* Elapsed wall-clock time is modelled in whole seconds as `Nat`.
* Floating point similarity scores are modelled as `ℚ`; `np.linalg.norm` is
  irrational-valued, so it is kept as an abstract parameter `nrm` — every
  theorem below holds for an arbitrary `nrm`, hence for the real norm.
-/

/-! ## Python dict model -/

/-- The parsed document record (`structured_info` in the source): a Python
`dict` from section name to text, modelled as an association list. -/
abbrev StructuredInfo := List (String × String)

/-- `d.get(k)`: first-match lookup. -/
def dictGet? (d : StructuredInfo) (k : String) : Option String :=
  (d.find? (fun kv => kv.1 == k)).map Prod.snd

/-- `d.get(k, v)`. -/
def dictGetD (d : StructuredInfo) (k v : String) : String :=
  (dictGet? d k).getD v

/-- `k in d`. -/
def hasKey (d : StructuredInfo) (k : String) : Bool :=
  (dictGet? d k).isSome

/-- Python truthiness of `d.get(k)`: the key is present with a non-empty
value. -/
def truthy (o : Option String) : Bool :=
  match o with
  | some s => s ≠ ""
  | none => false

/-! ## Core-content check and degraded-parse flag -/

/-- `PaperAnalyzer.CORE_SECTION_KEYS` (paper_analyzer.py lines 16–25). -/
def CORE_SECTION_KEYS : List String :=
  ["Abstract", "Introduction", "Methodology", "Experiments", "Results",
   "Conclusion", "Core Contributions", "Technical Approach"]

/-- `PaperAnalyzer.has_core_content` (paper_analyzer.py lines 328–330):
`any(structured_info.get(key) for key in self.CORE_SECTION_KEYS)`. -/
def has_core_content (si : StructuredInfo) : Bool :=
  CORE_SECTION_KEYS.any (fun k => truthy (dictGet? si k))

/-- The `degraded_parse` flag of `_generate_review_internal`
(api_service.py lines 435–438): `(not has_core_sections) or has_error`.
The helper `debug_core_content_check` the code calls there is missing (see
`paperAnalyzerMethods` below); the values it is expected to produce are
documented by the adjacent diagnostic output (api_service.py lines 459–464):
`has_core_content()` over the record, and presence of the `error` key. -/
def degraded_parse (si : StructuredInfo) : Bool :=
  (!has_core_content si) || hasKey si "error"

/-! ## Query construction -/

/-- The `f'"{kw}"'` quoting in `build_query`. -/
def quoteKw (kw : String) : String := "\"" ++ kw ++ "\""

/-- `PaperAnalyzer.build_query` (paper_analyzer.py lines 172–193).
Control flow transcribed exactly: with no keywords and a truthy title the
title is returned capped at 100 characters; with no keywords and an empty
title the code falls through to the join over `keywords[:3]`, which is the
empty string. -/
def build_query (keywords : List String) (si : StructuredInfo) : String :=
  if keywords.isEmpty then
    let title := dictGetD si "Title" ""
    if title ≠ "" then title.take 100
    else String.intercalate " | " ((keywords.take 3).map quoteKw)
  else if keywords.length = 1 then keywords.headD ""
  else String.intercalate " | " ((keywords.take 3).map quoteKw)

/-! ## Retrieval skip policy -/

/-- The two pre-emptive skip reasons for the retrieval stage
(`step3_skip_no_query` / `step3_skip_degraded` in api_service.py). -/
inductive SkipReason
  | noQuery
  | degradedParse
deriving DecidableEq, Repr

/-- The skip decision of `_generate_review_internal`
(api_service.py lines 510–515):

```python
if not query:
    skip_reason_key = 'step3_skip_no_query'
elif degraded_parse:
    skip_reason_key = 'step3_skip_degraded'
```

Note the order: the no-query test runs first. -/
def retrieval_skip_reason (query : String) (degraded : Bool) : Option SkipReason :=
  if query = "" then some SkipReason.noQuery
  else if degraded then some SkipReason.degradedParse
  else none

/-! ## Character-level string helpers

The keyword extractors do regex-based text processing; we model it on
`List Char`.  `\w`, `[a-zA-Z]` and case mapping are modelled at the ASCII
level (see the header note). -/

/-- ASCII upper-case letter (codepoints 65–90). -/
def isUpperAscii (c : Char) : Bool := 65 ≤ c.toNat && c.toNat ≤ 90

/-- ASCII letter, the regex class `[a-zA-Z]`. -/
def isAsciiAlpha (c : Char) : Bool :=
  (65 ≤ c.toNat && c.toNat ≤ 90) || (97 ≤ c.toNat && c.toNat ≤ 122)

/-- `str.lower()` on one character (ASCII case map). -/
def lowerChar (c : Char) : Char :=
  if 65 ≤ c.toNat ∧ c.toNat ≤ 90 then Char.ofNat (c.toNat + 32) else c

/-- `str.lower()`. -/
def lowerChars (l : List Char) : List Char := l.map lowerChar

/-- `str.strip()`. -/
def trimChars (l : List Char) : List Char :=
  ((l.dropWhile Char.isWhitespace).reverse.dropWhile Char.isWhitespace).reverse

/-- The regex class `\w` (ASCII model). -/
def isWordChar (c : Char) : Bool := isAsciiAlpha c || c.isDigit || c == '_'

/-- Separator class of `re.split(r'[,;，；\s]+', ...)` in
`_extract_fallback_keywords`. -/
def isKwSep (c : Char) : Bool :=
  c == ',' || c == ';' || c == '，' || c == '；' || c.isWhitespace

/-- Maximal runs of characters satisfying `p`; `acc` holds the current run
reversed. -/
def runsAux (p : Char → Bool) : List Char → List Char → List (List Char)
  | [], acc => if acc.isEmpty then [] else [acc.reverse]
  | c :: cs, acc =>
    if p c then runsAux p cs (c :: acc)
    else if acc.isEmpty then runsAux p cs []
    else acc.reverse :: runsAux p cs []

/-- Maximal runs of characters satisfying `p`. -/
def runsOf (p : Char → Bool) (l : List Char) : List (List Char) := runsAux p l []

/-- `re.findall(r'\b[a-zA-Z]{n,}\b', s)`: a maximal `\w`-run matches exactly
when it consists solely of letters and has length ≥ n (word boundaries forbid
a shorter match inside a run). -/
def findallAlphaRuns (minLen : Nat) (l : List Char) : List (List Char) :=
  (runsOf isWordChar l).filter (fun r => decide (minLen ≤ r.length) && r.all isAsciiAlpha)

/-- Python `s.split(sep)` (keeps empty fields). -/
def splitChar (sep : Char) : List Char → List (List Char)
  | [] => [[]]
  | c :: cs =>
    match splitChar sep cs with
    | [] => [[c]]
    | h :: t => if c == sep then [] :: h :: t else (c :: h) :: t

/-- `list(dict.fromkeys(keywords))`: deduplicate keeping first occurrences. -/
def dedupFirstAux {α : Type} [DecidableEq α] : List α → List α → List α
  | [], _ => []
  | x :: xs, seen =>
    if x ∈ seen then dedupFirstAux xs seen else x :: dedupFirstAux xs (x :: seen)

/-- `list(dict.fromkeys(keywords))`. -/
def dedupFirst {α : Type} [DecidableEq α] (l : List α) : List α := dedupFirstAux l []

/-! ## Stable descending sort

Python's `sorted(..., key=k, reverse=True)` is a stable sort: elements are
ordered by strictly greater key, and elements with equal keys keep their
original relative order.  A stable sort by a total preorder is extensionally
unique, so the insertion formulation below computes the same function as
CPython's Timsort. -/

/-- Stable descending insertion: `x` passes only elements with strictly
greater key and lands before the first element whose key is `≤` its own. -/
def insDescBy {α β : Type} [LinearOrder β] (key : α → β) (x : α) : List α → List α
  | [] => [x]
  | y :: ys => if key y ≤ key x then x :: y :: ys else y :: insDescBy key x ys

/-- `sorted(l, key=key, reverse=True)`. -/
def sortDescBy {α β : Type} [LinearOrder β] (key : α → β) : List α → List α
  | [] => []
  | x :: xs => insDescBy key x (sortDescBy key xs)

/-! ## Fallback (heuristic) keyword extractor -/

/-- Stop-word set for the length-≥4 Abstract pass
(paper_analyzer.py line 144). -/
def STOP_WORDS_ABSTRACT4 : List String :=
  ["this", "that", "these", "those", "with", "from", "have", "been", "will",
   "would", "could", "should", "might", "must", "paper", "study", "research",
   "method", "approach", "propose", "present", "show", "demonstrate", "result",
   "experiment", "evaluation", "performance", "improve", "better", "compared",
   "previous", "existing", "novel", "new", "using", "based", "through",
   "which", "where", "while", "when", "their", "there"]

/-- Stop-word set for the Title pass (paper_analyzer.py line 155). -/
def STOP_WORDS_TITLE : List String :=
  ["this", "that", "with", "from", "paper", "study", "research", "method",
   "approach", "novel", "new", "using", "based"]

/-- Stop-word set for the length-≥3 Abstract pass
(paper_analyzer.py line 164). -/
def STOP_WORDS_ABSTRACT3 : List String :=
  ["the", "and", "for", "are", "but", "not", "you", "all", "can", "her",
   "was", "one", "our", "out", "day", "get", "has", "him", "his", "how",
   "its", "may", "new", "now", "old", "see", "two", "way", "who", "boy",
   "did", "let", "put", "say", "she", "too", "use", "this", "that", "with",
   "from", "have", "been", "will", "would", "could", "should", "might",
   "must", "paper", "study", "research", "method", "approach", "propose",
   "present", "show", "demonstrate", "result", "experiment", "evaluation",
   "performance", "improve", "better", "compared", "previous", "existing",
   "novel", "using", "based", "through", "which", "where", "while", "when",
   "their", "there", "these", "those"]

/-- Character-list view of `STOP_WORDS_ABSTRACT4`. -/
def stopAbstract4C : List (List Char) := STOP_WORDS_ABSTRACT4.map String.data

/-- Character-list view of `STOP_WORDS_TITLE`. -/
def stopTitleC : List (List Char) := STOP_WORDS_TITLE.map String.data

/-- Character-list view of `STOP_WORDS_ABSTRACT3`. -/
def stopAbstract3C : List (List Char) := STOP_WORDS_ABSTRACT3.map String.data

/-- Pass 1 of `_extract_fallback_keywords` (paper_analyzer.py lines 130–137):
split the Keywords field on the separator class, keep tokens containing an
ASCII letter, lower-case them, take the first three. -/
def fallbackKws1 (si : StructuredInfo) : List (List Char) :=
  if hasKey si "Keywords" then
    (((runsOf (fun c => !isKwSep c) (dictGetD si "Keywords" "").data).filter
        (fun kw => kw.any isAsciiAlpha)).map
      (fun kw => lowerChars (trimChars kw))).take 3
  else []

/-- Passes 1–2 (paper_analyzer.py lines 139–148): long Abstract words,
stop-filtered, stably sorted by length descending, first three appended. -/
def fallbackKws2 (si : StructuredInfo) : List (List Char) :=
  fallbackKws1 si ++
    (if hasKey si "Abstract" then
      (sortDescBy (fun (w : List Char) => w.length)
          ((findallAlphaRuns 4 (lowerChars (dictGetD si "Abstract" "").data)).filter
            (fun w => decide (w ∉ stopAbstract4C)))).take 3
     else [])

/-- Passes 1–3 (paper_analyzer.py lines 150–157): Title words appended when
fewer than two terms were collected so far. -/
def fallbackKws3 (si : StructuredInfo) : List (List Char) :=
  fallbackKws2 si ++
    (if (fallbackKws2 si).length < 2 ∧ hasKey si "Title" then
      ((findallAlphaRuns 4 (lowerChars (dictGetD si "Title" "").data)).filter
          (fun w => decide (w ∉ stopTitleC))).take 2
     else [])

/-- Passes 1–4 (paper_analyzer.py lines 159–166): short Abstract words
appended when still fewer than two terms. -/
def fallbackKws4 (si : StructuredInfo) : List (List Char) :=
  fallbackKws3 si ++
    (if (fallbackKws3 si).length < 2 ∧ hasKey si "Abstract" then
      ((findallAlphaRuns 3 (lowerChars (dictGetD si "Abstract" "").data)).filter
          (fun w => decide (w ∉ stopAbstract3C))).take 2
     else [])

/-- `PaperAnalyzer._extract_fallback_keywords` (paper_analyzer.py
lines 125–170): the four accumulation passes above, then
`list(dict.fromkeys(keywords))[:4]`.  The split tokens of the Keywords field
contain no whitespace (whitespace is a separator), so the source's
`kw.strip()` is the identity there; it is kept as `trimChars` for fidelity. -/
def _extract_fallback_keywords (si : StructuredInfo) : List String :=
  ((dedupFirst (fallbackKws4 si)).take 4).map String.mk

/-! ## Inference-based keyword extractor (post-processing of the LLM reply) -/

/-- `task_related_generic_words` (paper_analyzer.py lines 88–92). -/
def GENERIC_WORDS : List String :=
  ["keyword extraction", "keyword", "keywords", "extraction",
   "natural language processing", "nlp", "text mining", "text analysis",
   "information retrieval", "information extraction", "data mining"]

/-- Character-list view of `GENERIC_WORDS`. -/
def genericWordsC : List (List Char) := GENERIC_WORDS.map String.data

/-- `re.sub(r'[^\x00-\x7F]+', '', s)`: keep ASCII characters only. -/
def asciiOnly (l : List Char) : List Char := l.filter (fun c => c.toNat ≤ 127)

/-- `re.sub(r'^[^\w]+|[^\w]+$', '', s)`: drop the leading and the trailing
run of non-word characters. -/
def stripNonWordEnds (l : List Char) : List Char :=
  ((l.dropWhile (fun c => !isWordChar c)).reverse.dropWhile
    (fun c => !isWordChar c)).reverse

/-- One alternative of the anchored header regex: case-insensitive prefix `p`
(given lower-cased), then an optional colon (ASCII or full-width), then
`\s*`. -/
def headerMatch (l : List Char) (p : List Char) : Option (List Char) :=
  if lowerChars (l.take p.length) = p then
    let r := l.drop p.length
    let r1 := match r with
      | c :: cs => if (c == ':') || (c == '：') then cs else c :: cs
      | [] => r
    some (r1.dropWhile Char.isWhitespace)
  else none

/-- `re.sub(r'^(关键词|keywords|keyword)[:：]?\s*', '', s, flags=IGNORECASE)`
(paper_analyzer.py line 81).  The regex alternation is ordered and the
suffixes are optional, so whichever alternative matches first wins. -/
def stripKwHeader (l : List Char) : List Char :=
  match headerMatch l "关键词".data with
  | some r => r
  | none =>
    match headerMatch l "keywords".data with
    | some r => r
    | none => (headerMatch l "keyword".data).getD l

/-- The per-candidate cleanup of the extraction loop
(paper_analyzer.py lines 94–105). -/
def processKw (kw : List Char) : Option (List Char) :=
  let kl := trimChars (lowerChars kw)
  if kl ≠ [] ∧ kl.any isAsciiAlpha then
    let ep := stripNonWordEnds (trimChars (asciiOnly kl))
    if ep ≠ [] then some ep else none
  else none

/-- `PaperAnalyzer.extract_keywords` (paper_analyzer.py lines 42–123): the
deterministic post-processing of the inference reply `response`.  The reply
itself comes from the out-of-scope inference collaborator and is therefore a
parameter; the exception path of the method (collaborator failure) returns
`_extract_fallback_keywords`, covered separately. -/
def extract_keywords (response : String) (si : StructuredInfo) : List String :=
  let rc0 := trimChars response.data
  let parts := splitChar ':' rc0
  let rc1 := if parts.length > 1 then trimChars (parts.getLastD []) else rc0
  let rc2 := stripKwHeader rc1
  let raw := (splitChar ',' rc2).map trimChars
  let kws := (raw.filterMap processKw).take 4
  if kws ≠ [] ∧ kws.all (fun k => decide (k ∈ genericWordsC)) then
    let fb := _extract_fallback_keywords si
    if fb ≠ [] then fb else kws.map String.mk
  else kws.map String.mk

/-- "Every character is lower-cased": no ASCII upper-case letter occurs. -/
def noUpperStr (s : String) : Bool := s.data.all (fun c => !isUpperAscii c)

/-! ## Related records, fusion and re-ranking (retriever.py) -/

/-- A related record as returned by a search branch: the dict fields
`paperId` / `title` / `abstract`.  `none` models an absent key or a JSON
`null` value (both are falsy to `dict.get(...) or ...`). -/
structure Paper where
  paperId : Option String
  title : Option String
  abstract : Option String
deriving DecidableEq, Repr

/-- `paper.get('paperId') or paper.get('title', '')`
(retriever.py line 419): the stable identifier with title fallback. -/
def dedupKey (p : Paper) : String :=
  let pid := p.paperId.getD ""
  if pid ≠ "" then pid else p.title.getD ""

/-- Inner loop of `merge_and_deduplicate` (retriever.py lines 414–424), with
the `seen_ids` set carried explicitly. -/
def mergeAux : List Paper → List String → List Paper
  | [], _ => []
  | p :: ps, seen =>
    if dedupKey p ≠ "" ∧ dedupKey p ∉ seen then
      p :: mergeAux ps (dedupKey p :: seen)
    else mergeAux ps seen

/-- `PaperRetriever.merge_and_deduplicate` (retriever.py lines 412–424).
The argument lists are `results.values()` in dict insertion order; in
`hybrid_retrieve` that order is newest, highly-cited, relevant
(retriever.py lines 498–502). -/
def merge_and_deduplicate (results : List (List Paper)) : List Paper :=
  mergeAux results.flatten []

/-- An embedding vector (floats modelled as `ℚ`). -/
abbrev Vec := List ℚ

/-- `np.dot` on the zipped coordinates. -/
def dotQ (u v : Vec) : ℚ := ((u.zip v).map (fun p => p.1 * p.2)).sum

/-- The `1e-8` denominator guard. -/
def EPS : ℚ := 1 / 100000000

/-- The cosine similarity of retriever.py lines 446–448, with the norm kept
abstract (`np.linalg.norm` is irrational-valued; every theorem holds for an
arbitrary `nrm`). -/
def cosineSim (nrm : Vec → ℚ) (bg v : Vec) : ℚ :=
  dotQ bg v / (nrm bg * nrm v + EPS)

/-- Outcome of the batched `EmbeddingClient.encode` call for the candidate
texts: the call raises, or yields one vector per text (the client substitutes
a zero-vector placeholder for failed items, embedding_client.py
lines 105–124). -/
inductive BatchEmb
  | raises
  | vecs (vs : List Vec)

/-- `sorted(zip(papers, similarities), key=lambda x: x[1], reverse=True)`
(retriever.py lines 451–455). -/
def rerank_sort (pairs : List (Paper × ℚ)) : List (Paper × ℚ) :=
  sortDescBy Prod.snd pairs

/-- `PaperRetriever.rerank_by_similarity` (retriever.py lines 426–461):
guard clauses, similarity computation, stable descending sort, and the
catch-all that returns the input order on any embedding failure. -/
def rerank_by_similarity (hasClient : Bool) (papers : List Paper) (bg : Vec)
    (pe : BatchEmb) (nrm : Vec → ℚ) : List Paper :=
  if !hasClient ∨ papers.length = 0 then papers
  else
    match pe with
    | BatchEmb.raises => papers
    | BatchEmb.vecs vs =>
      let sims := vs.map (cosineSim nrm bg)
      (rerank_sort (papers.zip sims)).map Prod.fst

/-- Outcome of the single `encode(query_text)` call for the background text
(retriever.py line 510): the call raises, or yields a vector (the zero vector
of dimension 1024 when every underlying request failed). -/
inductive BgEmb
  | raises
  | vec (v : Vec)

/-- `Config.MAX_TOTAL_PAPERS` default (config.py lines 59–60). -/
def MAX_TOTAL_PAPERS : Nat := 10

/-- The re-rank step of `hybrid_retrieve` (retriever.py lines 508–514):
re-rank only when an embedding client exists, the background-embedding call
did not raise, and the background embedding is non-empty; the `except`
handler keeps the fused order on a raise. -/
def hybridRerankStep (allPapers : List Paper) (hasClient : Bool) (bg : BgEmb)
    (pe : BatchEmb) (nrm : Vec → ℚ) : List Paper :=
  if hasClient then
    match bg with
    | BgEmb.raises => allPapers
    | BgEmb.vec v =>
      if 0 < v.length then rerank_by_similarity hasClient allPapers v pe nrm
      else allPapers
  else allPapers

/-- The fusion/re-rank/truncation tail of `PaperRetriever.hybrid_retrieve`
(retriever.py lines 474–516): fuse the three branch results in submission
order, return `[]` on an empty fusion, apply the re-rank step, and cap the
output at `MAX_TOTAL_PAPERS`. -/
def hybrid_retrieve (newest cited relevant : List Paper) (hasClient : Bool)
    (bg : BgEmb) (pe : BatchEmb) (nrm : Vec → ℚ) (maxTotal : Nat) : List Paper :=
  if merge_and_deduplicate [newest, cited, relevant] = [] then []
  else
    (hybridRerankStep (merge_and_deduplicate [newest, cited, relevant])
      hasClient bg pe nrm).take maxTotal

/-! ## Heartbeat task runner (api_service.py lines 124–171) -/

/-- What the offloaded unit of work does when it finishes: return a value or
raise an error. -/
inductive WorkOutcome (α : Type)
  | ret (v : α)
  | raiseErr (e : String)
deriving DecidableEq, Repr

/-- An item yielded by `run_with_heartbeat`: a keep-alive heartbeat
(`format_sse_data(" ")`) or the tagged terminal `("RESULT", value)` tuple. -/
inductive HbItem (α : Type)
  | heartbeat
  | result (v : α)
deriving DecidableEq, Repr

/-- How the generator terminates abnormally: the absolute-timeout
`asyncio.TimeoutError` raised at line 158, or the work's own exception
re-raised at line 171. -/
inductive RunExn
  | timeoutError
  | workError (e : String)
deriving DecidableEq, Repr

/-- The absolute-timeout test of api_service.py line 156:
`timeout is not None and (now - start_time) > timeout` with `start_time = 0`. -/
def deadlineHit (timeout : Option Nat) (now : Nat) : Bool :=
  match timeout with
  | none => false
  | some t => t < now

/-- The polling loop of `run_with_heartbeat` (lines 146–158), one iteration
per 1-second sleep: `remaining` seconds until `task.done()`, current time
`now`, last heartbeat time `lastHb`.  Each iteration sleeps one second, then
yields a heartbeat when `interval ≤ now - lastHb` (line 151), then raises
when the absolute timeout is exceeded (line 156).  Returns the yielded
heartbeats and whether the timeout fired (which cancels the task and
raises). -/
def hbLoop (interval : Nat) (timeout : Option Nat) :
    Nat → Nat → Nat → List (HbItem α) × Bool
  | 0, _, _ => ([], false)
  | remaining + 1, now, lastHb =>
    if interval ≤ now + 1 - lastHb then
      if deadlineHit timeout (now + 1) then ([HbItem.heartbeat], true)
      else
        let rest := hbLoop interval timeout remaining (now + 1) (now + 1)
        (HbItem.heartbeat :: rest.1, rest.2)
    else
      if deadlineHit timeout (now + 1) then ([], true)
      else hbLoop interval timeout remaining (now + 1) lastHb

/-- `run_with_heartbeat` (api_service.py lines 124–171) for a unit of work
that runs `duration` seconds and then finishes with `outcome`: the list of
yielded items, and the exception the generator raises, if any.  On normal
completion the tagged `("RESULT", value)` tuple is yielded (line 165); when
the work raised, the error is re-raised (line 171) — not yielded. -/
def run_with_heartbeat (α : Type) (duration interval : Nat) (timeout : Option Nat)
    (outcome : WorkOutcome α) : List (HbItem α) × Option RunExn :=
  let loopOut := hbLoop interval timeout duration 0 0
  if loopOut.2 then (loopOut.1, some RunExn.timeoutError)
  else
    match outcome with
    | WorkOutcome.ret v => (loopOut.1 ++ [HbItem.result v], none)
    | WorkOutcome.raiseErr e => (loopOut.1, some (RunExn.workError e))

/-! ## Orchestrator messages and the SSE stream (api_service.py)

`stream_message` slices every textual message into one SSE content frame per
character; the slicing is orthogonal to everything verified here, so the
stream is modelled at message granularity: one `Frame.content` per message.
A heartbeat is a content frame whose payload is a single blank
(`format_sse_data(" ")`), modelled as `Msg.heartbeat`. -/

/-- The textual messages `_generate_review_internal` can emit, one
constructor per `msg_templates` entry / literal used on the modelled paths. -/
inductive Msg
  | heartbeat
  | pdfWarning (e : String)
  | pdfParseFatal
  | step1
  | keyExtractionTimeout
  | step2
  | step3 (n : Nat)
  | step3SkipDegraded
  | step3SkipNoQuery
  | step4
  | step5
  | step6
  | progress
  | reviewEmpty
  | reviewText (s : String)
  | processFailure (e : String)
  | timeoutGlobal
deriving DecidableEq, Repr

/-- A wire frame: a content frame (`format_sse_data`, api_service.py
lines 94–108) or the terminal `data: [DONE]` frame (`format_sse_done`,
lines 110–115). -/
inductive Frame
  | content (m : Msg)
  | done
deriving DecidableEq, Repr

/-- `Config.REVIEW_TIMEOUT` default (config.py lines 77–78), the global
deadline `REQUEST_TIMEOUT` of api_service.py line 86. -/
def REVIEW_TIMEOUT : Nat := 1200

/-- `generate_review_stream` (api_service.py lines 724–783): the outer
wrapper around the internal generator.  The internal generator is given as
its timed trace — the messages it yields, stamped with the elapsed seconds at
which the wrapper receives them, followed by an optional exception it raises
after its last yield (`_generate_review_internal` catches its own failures,
but the wrapper's handler is modelled for completeness).  For each received
item the wrapper first checks the deadline (line 738): when exceeded it
emits the timeout message and the terminal frame and stops, dropping the
item; otherwise it forwards the item.  On normal exhaustion it appends the
terminal frame (line 757); on an escaped exception it emits the failure
message and the terminal frame (lines 759–776). -/
def generate_review_stream (deadline : Nat) :
    List (Nat × Msg) → Option String → List Frame
  | [], none => [Frame.done]
  | [], some e => [Frame.content (Msg.processFailure e), Frame.done]
  | (t, m) :: rest, exn =>
    if deadline < t then [Frame.content Msg.timeoutGlobal, Frame.done]
    else Frame.content m :: generate_review_stream deadline rest exn

/-! ## The internal pipeline after the parse stage (api_service.py) -/

/-- The methods defined on `PaperAnalyzer` (paper_analyzer.py): the complete
list of `def`s in the class body.  `debug_core_content_check` is not among
them. -/
def paperAnalyzerMethods : List String :=
  ["__init__", "extract_keywords", "_extract_fallback_keywords", "build_query",
   "retrieve_related_papers", "calculate_semantic_similarity",
   "analyze_innovation", "_format_structured_info", "has_core_content",
   "_format_related_papers", "analyze"]

/-- The message of the `AttributeError` raised by a failed attribute lookup
on `PaperAnalyzer`. -/
def attributeErrorMsg : String :=
  "AttributeError: PaperAnalyzer object has no attribute debug_core_content_check"

/-- Happy-path results of the collaborator calls made by stages 2–6, kept
abstract: the key-term extraction reply, the retrieval count, and the review
text. -/
structure Oracles where
  keywords : List String
  retrievalCount : Nat
  review : String

/-- Stages 2–6 of `_generate_review_internal` (api_service.py lines 467–691)
at message granularity on the collaborator happy path (heartbeats and
per-stage timeout fallbacks elided): key-term extraction and query
construction, the retrieval-skip decision, the analysis and evaluation
markers, and the report output.  This continuation is reachable only if the
attribute lookup guarding it succeeds — see `internal_post_parse`. -/
def internal_stages2to6 (si : StructuredInfo) (o : Oracles) : List Msg :=
  let degraded := degraded_parse si
  let query := build_query o.keywords si
  [Msg.step2] ++
  (match retrieval_skip_reason query degraded with
   | some SkipReason.noQuery => [Msg.step3SkipNoQuery]
   | some SkipReason.degradedParse => [Msg.step3SkipDegraded]
   | none => [Msg.step3 o.retrievalCount]) ++
  [Msg.step4, Msg.step5, Msg.step6, Msg.progress] ++
  (if o.review.trim = "" then [Msg.reviewEmpty] else [Msg.reviewText o.review])

/-- `_generate_review_internal` from the point where the parse stage has
produced `structured_info` (api_service.py lines 413–721): the `error`-key
warning and the fatal bail-out when no raw text remains (lines 415–428), the
stage-1 completion message (line 431), then the lookup of
`paper_analyzer.debug_core_content_check` (line 435).  When the lookup
fails, the `AttributeError` propagates to the function-level handler
(lines 697–721), which emits one process-failure message and ends the
generator. -/
def internal_post_parse (si : StructuredInfo) (o : Oracles) : List Msg :=
  let warn : List Msg :=
    if hasKey si "error" then [Msg.pdfWarning (dictGetD si "error" "")] else []
  if hasKey si "error" ∧ dictGetD si "raw_text" "" = "" then
    warn ++ [Msg.pdfParseFatal]
  else
    warn ++ [Msg.step1] ++
    (if paperAnalyzerMethods.contains "debug_core_content_check" then
      internal_stages2to6 si o
    else
      [Msg.processFailure attributeErrorMsg])

/-! ## Concrete fixtures used by counterexamples and witnesses -/

/-- A branch result carrying neither a `paperId` nor a `title`. -/
def keylessPaper : Paper := ⟨none, none, none⟩

/-- Eleven branch results with pairwise distinct identifiers. -/
def elevenPapers : List Paper :=
  [⟨some "p0", none, none⟩, ⟨some "p1", none, none⟩, ⟨some "p2", none, none⟩,
   ⟨some "p3", none, none⟩, ⟨some "p4", none, none⟩, ⟨some "p5", none, none⟩,
   ⟨some "p6", none, none⟩, ⟨some "p7", none, none⟩, ⟨some "p8", none, none⟩,
   ⟨some "p9", none, none⟩, ⟨some "p10", none, none⟩]

/-- A concrete norm function for witness instantiations (the theorems hold
for every `nrm`). -/
def zeroNrm : Vec → ℚ := fun _ => 0

/-- A parsed record with every core section empty, an `error` key, and an
empty title: no usable query can be derived from it. -/
def siAllEmpty : StructuredInfo :=
  [("Abstract", ""), ("Introduction", ""), ("Methodology", ""),
   ("Experiments", ""), ("Results", ""), ("Conclusion", ""),
   ("Core Contributions", ""), ("Technical Approach", ""),
   ("error", "structured extraction returned nothing"), ("Title", ""),
   ("raw_text", "some raw text")]

/-- A parsed record with every core section empty, an `error` key, and a
usable title. -/
def siAllEmptyTitled : StructuredInfo :=
  [("Abstract", ""), ("Introduction", ""), ("Methodology", ""),
   ("Experiments", ""), ("Results", ""), ("Conclusion", ""),
   ("Core Contributions", ""), ("Technical Approach", ""),
   ("error", "structured extraction returned nothing"),
   ("Title", "Efficient Graph Search"), ("raw_text", "some raw text")]

/-- A usable parsed record (raw text present, no error key). -/
def siUsable : StructuredInfo :=
  [("Title", "Efficient Graph Search"), ("Abstract", "graph search methods"),
   ("raw_text", "full text")]

/-- Trivial collaborator oracles for witness instantiations. -/
def oraclesTrivial : Oracles := ⟨[], 0, ""⟩

/-! # Theorems -/

/-! ## Stable descending sort -/

theorem insDescBy_perm {α β : Type} [LinearOrder β] (key : α → β) (x : α)
    (l : List α) : (insDescBy key x l).Perm (x :: l) := by
  induction l with
  | nil => simp [insDescBy]
  | cons y ys ih =>
    unfold insDescBy
    by_cases h : key y ≤ key x
    · simp [h]
    · rw [if_neg h]
      exact (ih.cons y).trans (List.Perm.swap x y ys)

theorem sortDescBy_perm {α β : Type} [LinearOrder β] (key : α → β) (l : List α) :
    (sortDescBy key l).Perm l := by
  induction l with
  | nil => simp [sortDescBy]
  | cons x xs ih =>
    exact (insDescBy_perm key x (sortDescBy key xs)).trans (ih.cons x)

theorem mem_insDescBy {α β : Type} [LinearOrder β] {key : α → β} {x z : α}
    {l : List α} : z ∈ insDescBy key x l ↔ z = x ∨ z ∈ l := by
  rw [(insDescBy_perm key x l).mem_iff, List.mem_cons]

theorem mem_sortDescBy {α β : Type} [LinearOrder β] {key : α → β} {z : α}
    {l : List α} : z ∈ sortDescBy key l ↔ z ∈ l :=
  (sortDescBy_perm key l).mem_iff

theorem insDescBy_pairwise {α β : Type} [LinearOrder β] (key : α → β) (x : α)
    {l : List α} (h : l.Pairwise (fun a b => key b ≤ key a)) :
    (insDescBy key x l).Pairwise (fun a b => key b ≤ key a) := by
  induction l with
  | nil => simp [insDescBy]
  | cons y ys ih =>
    rw [List.pairwise_cons] at h
    obtain ⟨hy, hys⟩ := h
    unfold insDescBy
    by_cases hxy : key y ≤ key x
    · rw [if_pos hxy]
      refine List.Pairwise.cons ?_ (List.Pairwise.cons hy hys)
      intro z hz
      rcases List.mem_cons.mp hz with rfl | hz
      · exact hxy
      · exact le_trans (hy z hz) hxy
    · rw [if_neg hxy]
      refine List.Pairwise.cons ?_ (ih hys)
      intro z hz
      rcases mem_insDescBy.mp hz with rfl | hz
      · exact le_of_not_le hxy
      · exact hy z hz

theorem sortDescBy_pairwise {α β : Type} [LinearOrder β] (key : α → β)
    (l : List α) : (sortDescBy key l).Pairwise (fun a b => key b ≤ key a) := by
  induction l with
  | nil => simp [sortDescBy]
  | cons x xs ih => exact insDescBy_pairwise key x ih

theorem insDescBy_filter {α β : Type} [LinearOrder β] (key : α → β) (x : α)
    (l : List α) (c : β) :
    (insDescBy key x l).filter (fun a => decide (key a = c)) =
      (x :: l).filter (fun a => decide (key a = c)) := by
  induction l with
  | nil => simp [insDescBy]
  | cons y ys ih =>
    unfold insDescBy
    by_cases hxy : key y ≤ key x
    · rw [if_pos hxy]
    · rw [if_neg hxy]
      have hnboth : ¬(key x = c ∧ key y = c) := by
        rintro ⟨hx, hy⟩
        exact hxy (le_of_eq (hy.trans hx.symm))
      by_cases hx : key x = c <;> by_cases hy : key y = c
      · exact absurd ⟨hx, hy⟩ hnboth
      · simp [List.filter_cons, hx, hy, ih]
      · simp [List.filter_cons, hx, hy, ih]
      · simp [List.filter_cons, hx, hy, ih]

theorem sortDescBy_filter {α β : Type} [LinearOrder β] (key : α → β)
    (l : List α) (c : β) :
    (sortDescBy key l).filter (fun a => decide (key a = c)) =
      l.filter (fun a => decide (key a = c)) := by
  induction l with
  | nil => simp [sortDescBy]
  | cons x xs ih =>
    unfold sortDescBy
    rw [insDescBy_filter]
    simp [List.filter_cons, ih]

theorem sortDescBy_const {α β : Type} [LinearOrder β] (key : α → β)
    {l : List α} {c : β} (h : ∀ a ∈ l, key a = c) : sortDescBy key l = l := by
  induction l with
  | nil => rfl
  | cons x xs ih =>
    have hx : key x = c := h x (List.mem_cons_self x xs)
    have hxs : ∀ a ∈ xs, key a = c := fun a ha => h a (List.mem_cons_of_mem x ha)
    unfold sortDescBy
    rw [ih hxs]
    cases xs with
    | nil => rfl
    | cons y ys =>
      have hle : key y ≤ key x := by
        rw [hx, hxs y (List.mem_cons_self y ys)]
      unfold insDescBy
      rw [if_pos hle]

/-- C7: for every fused candidate list and every assignment of
cosine-similarity scores, the re-ranking sort
(`sorted(zip(papers, similarities), key=lambda x: x[1], reverse=True)` in
`rerank_by_similarity`) permutes the scored candidates, orders them by score
descending, and keeps candidates with equal scores in their pre-rerank
relative order (the filter at each score value is unchanged); on a non-empty
candidate list with computed similarities, `rerank_by_similarity` is exactly
the projection of this sort. -/
theorem rerank_sort_stable_desc (pairs : List (Paper × ℚ)) :
    (rerank_sort pairs).Perm pairs ∧
    (rerank_sort pairs).Pairwise (fun a b => b.2 ≤ a.2) ∧
    (∀ s : ℚ, (rerank_sort pairs).filter (fun p => decide (p.2 = s)) =
      pairs.filter (fun p => decide (p.2 = s))) ∧
    (∀ (p : Paper) (ps : List Paper) (bg : Vec) (vs : List Vec) (nrm : Vec → ℚ),
      rerank_by_similarity true (p :: ps) bg (BatchEmb.vecs vs) nrm =
        (rerank_sort ((p :: ps).zip (vs.map (cosineSim nrm bg)))).map Prod.fst) := by
  refine ⟨sortDescBy_perm _ _, sortDescBy_pairwise _ _,
    fun s => sortDescBy_filter _ _ _, ?_⟩
  intro p ps bg vs nrm
  simp [rerank_by_similarity]

/-! ## C9: query construction scenarios -/

set_option maxRecDepth 4000 in
/-- C9: `build_query` maps the two-term list to the quoted, bar-joined query;
a single term is returned as the query verbatim; with no terms the document
title is used, capped at 100 characters. -/
theorem build_query_scenarios :
    build_query ["graph search", "knowledge integration"] [] =
      "\"graph search\" | \"knowledge integration\"" ∧
    build_query ["transformer"] [] = "transformer" ∧
    build_query [] [("Title", "Efficient Graph Search")] =
      "Efficient Graph Search" ∧
    build_query [] [("Title", "Efficient Graph Search")] =
      ("Efficient Graph Search" : String).take 100 := by
  refine ⟨?_, ?_, ?_, ?_⟩ <;> decide

/-! ## C3: exactly one terminal frame, always last -/

/-- C3: for every deadline, every timed trace of the internal generator, and
every escaped exception, the emitted stream is a terminal-free prefix
followed by exactly one `data: [DONE]` frame — on the success path, the
global-timeout path, and the handled-error path alike. -/
theorem stream_exactly_one_done (deadline : Nat) (items : List (Nat × Msg))
    (exn : Option String) :
    ∃ p, generate_review_stream deadline items exn = p ++ [Frame.done] ∧
      Frame.done ∉ p := by
  induction items with
  | nil =>
    cases exn with
    | none => exact ⟨[], rfl, by simp⟩
    | some e => exact ⟨[Frame.content (Msg.processFailure e)], rfl, by simp⟩
  | cons hd tl ih =>
    obtain ⟨t, m⟩ := hd
    by_cases h : deadline < t
    · exact ⟨[Frame.content Msg.timeoutGlobal],
        by simp [generate_review_stream, h], by simp⟩
    · obtain ⟨p, hp, hnp⟩ := ih
      exact ⟨Frame.content m :: p,
        by simp [generate_review_stream, h, hp], by simp [hnp]⟩

/-! ## C5: global deadline fires right after an over-long parse -/

theorem grs_append_within (deadline : Nat) (a b : List (Nat × Msg))
    (exn : Option String) (h : ∀ x ∈ a, x.1 ≤ deadline) :
    generate_review_stream deadline (a ++ b) exn =
      a.map (fun x => Frame.content x.2) ++
        generate_review_stream deadline b exn := by
  induction a with
  | nil => simp
  | cons hd tl ih =>
    obtain ⟨t, m⟩ := hd
    have ht : t ≤ deadline := h (t, m) (List.mem_cons_self _ _)
    have hnt : ¬deadline < t := not_lt.mpr ht
    simp [generate_review_stream, hnt,
      ih (fun x hx => h x (List.mem_cons_of_mem _ hx))]

/-- C5: with the default global deadline of 1200 seconds, when the parse
stage alone runs until second 1205 (its heartbeats all arriving within the
deadline, its completion message at second 1205), the wrapper aborts on the
first frame after parse resolves: the output is the parse heartbeats, then
exactly one global-timeout error fragment, then the terminal frame — no
stage-2 (key-term extraction) frame ever appears, whatever messages the rest
of the pipeline would have produced. -/
theorem global_timeout_after_long_parse (hbs rest : List (Nat × Msg))
    (exn : Option String)
    (h : ∀ x ∈ hbs, x.1 ≤ REVIEW_TIMEOUT ∧ x.2 = Msg.heartbeat) :
    REVIEW_TIMEOUT = 1200 ∧
    generate_review_stream REVIEW_TIMEOUT (hbs ++ (1205, Msg.step1) :: rest) exn =
      hbs.map (fun x => Frame.content x.2) ++
        [Frame.content Msg.timeoutGlobal, Frame.done] ∧
    Frame.content Msg.step2 ∉
      generate_review_stream REVIEW_TIMEOUT (hbs ++ (1205, Msg.step1) :: rest) exn ∧
    (generate_review_stream REVIEW_TIMEOUT
        (hbs ++ (1205, Msg.step1) :: rest) exn).count
      (Frame.content Msg.timeoutGlobal) = 1 := by
  have heq : generate_review_stream REVIEW_TIMEOUT
      (hbs ++ (1205, Msg.step1) :: rest) exn =
      hbs.map (fun x => Frame.content x.2) ++
        [Frame.content Msg.timeoutGlobal, Frame.done] := by
    rw [grs_append_within _ _ _ _ (fun x hx => (h x hx).1)]
    have hcut : generate_review_stream REVIEW_TIMEOUT
        ((1205, Msg.step1) :: rest) exn =
        [Frame.content Msg.timeoutGlobal, Frame.done] := by
      simp [generate_review_stream, REVIEW_TIMEOUT]
    rw [hcut]
  refine ⟨rfl, heq, ?_, ?_⟩
  · rw [heq]
    intro hmem
    rcases List.mem_append.mp hmem with hmem | hmem
    · obtain ⟨x, hx, hcx⟩ := List.mem_map.mp hmem
      rw [(h x hx).2] at hcx
      simp at hcx
    · simp at hmem
  · rw [heq, List.count_append]
    have h0 : (hbs.map (fun x => Frame.content x.2)).count
        (Frame.content Msg.timeoutGlobal) = 0 := by
      rw [List.count_eq_zero]
      intro hmem
      obtain ⟨x, hx, hcx⟩ := List.mem_map.mp hmem
      rw [(h x hx).2] at hcx
      simp at hcx
    rw [h0]
    rfl

/-- Witness for C5 at a concrete trace: two parse heartbeats, the parse
completion message at second 1205, then the messages stage 2 would emit. -/
theorem global_timeout_after_long_parse_witness :
    generate_review_stream REVIEW_TIMEOUT
        ([(15, Msg.heartbeat), (30, Msg.heartbeat)] ++
          (1205, Msg.step1) :: [(1205, Msg.step2), (1206, Msg.step3 0)]) none =
      [Frame.content Msg.heartbeat, Frame.content Msg.heartbeat,
       Frame.content Msg.timeoutGlobal, Frame.done] :=
  (global_timeout_after_long_parse [(15, Msg.heartbeat), (30, Msg.heartbeat)]
    [(1205, Msg.step2), (1206, Msg.step3 0)] none (by decide)).2.1

/-! ## C4: heartbeat runner trace shape -/

theorem hbLoop_items_replicate {α : Type} (interval : Nat)
    (timeout : Option Nat) :
    ∀ rem now lastHb, ∃ k,
      (hbLoop (α := α) interval timeout rem now lastHb).1 =
        List.replicate k HbItem.heartbeat := by
  intro rem
  induction rem with
  | zero => exact fun now lastHb => ⟨0, rfl⟩
  | succ n ih =>
    intro now lastHb
    unfold hbLoop
    by_cases hhb : interval ≤ now + 1 - lastHb
    · rw [if_pos hhb]
      by_cases hto : deadlineHit timeout (now + 1)
      · exact ⟨1, by rw [if_pos hto]; rfl⟩
      · obtain ⟨k, hk⟩ := ih (now + 1) (now + 1)
        exact ⟨k + 1, by rw [if_neg hto]; simp [hk, List.replicate_succ]⟩
    · rw [if_neg hhb]
      by_cases hto : deadlineHit timeout (now + 1)
      · exact ⟨0, by rw [if_pos hto]; rfl⟩
      · obtain ⟨k, hk⟩ := ih (now + 1) lastHb
        exact ⟨k, by rw [if_neg hto]; exact hk⟩

/-- C4 (amended): for every unit of work, every heartbeat interval and every
absolute timeout, the consumer of `run_with_heartbeat` observes zero or more
heartbeat tokens followed by exactly one terminal event: when the work
returns a value within the timeout, one tagged `Result` wrapping that value
is yielded and the generator ends normally; when the work raises, or the
absolute timeout fires, the generator raises instead — no `Result` token is
yielded. -/
theorem run_with_heartbeat_terminal (α : Type) (duration interval : Nat)
    (timeout : Option Nat) (outcome : WorkOutcome α) :
    ∃ n,
      (∃ v, outcome = WorkOutcome.ret v ∧
        run_with_heartbeat α duration interval timeout outcome =
          (List.replicate n HbItem.heartbeat ++ [HbItem.result v], none)) ∨
      (∃ exn, run_with_heartbeat α duration interval timeout outcome =
          (List.replicate n HbItem.heartbeat, some exn)) := by
  obtain ⟨k, hk⟩ := hbLoop_items_replicate (α := α) interval timeout duration 0 0
  refine ⟨k, ?_⟩
  unfold run_with_heartbeat
  by_cases hto : (hbLoop (α := α) interval timeout duration 0 0).2
  · right
    exact ⟨RunExn.timeoutError, by rw [if_pos hto, hk]⟩
  · cases outcome with
    | ret v =>
      left
      exact ⟨v, rfl, by rw [if_neg hto, hk]⟩
    | raiseErr e =>
      right
      exact ⟨RunExn.workError e, by rw [if_neg hto, hk]⟩

/-- C4 counterexample to the claim as stated: a unit of work that raises.
The generator yields no items at all — in particular no terminal `Result`
wrapping the raised error — and instead re-raises the error to the
consumer. -/
theorem run_with_heartbeat_raise_no_result :
    run_with_heartbeat String 1 25 none (WorkOutcome.raiseErr "boom") =
      ([], some (RunExn.workError "boom")) ∧
    ((run_with_heartbeat String 1 25 none (WorkOutcome.raiseErr "boom")).1.countP
      (fun i => match i with | HbItem.result _ => true | _ => false)) = 0 := by
  exact ⟨rfl, rfl⟩

/-! ## C1: skip-reason precedence for the retrieval stage -/

/-- C1 counterexample: a record with every core section empty, an `error`
key present, and no title.  Parsing is marked degraded, but the fallback
key-term extractor yields nothing, the derived query is empty, and the skip
decision reports the `no query` reason — not the `degraded parse` reason the
claim requires regardless of query derivability. -/
theorem skip_reason_noquery_wins :
    (∀ k ∈ CORE_SECTION_KEYS, dictGet? siAllEmpty k = some "") ∧
    hasKey siAllEmpty "error" = true ∧
    degraded_parse siAllEmpty = true ∧
    _extract_fallback_keywords siAllEmpty = [] ∧
    build_query (_extract_fallback_keywords siAllEmpty) siAllEmpty = "" ∧
    retrieval_skip_reason
        (build_query (_extract_fallback_keywords siAllEmpty) siAllEmpty)
        (degraded_parse siAllEmpty) = some SkipReason.noQuery ∧
    SkipReason.noQuery ≠ SkipReason.degradedParse := by
  refine ⟨by decide, rfl, rfl, rfl, rfl, rfl, by decide⟩

/-- C1 (amended): for a record with every core section empty (or absent) and
an `error` key present, parsing is marked degraded, and the retrieval stage
is skipped with the `degraded parse` reason provided a usable (non-empty)
query was derived; when no usable query exists the `no query` check, which
runs first, wins instead. -/
theorem skip_reason_degraded_when_query (si : StructuredInfo)
    (kws : List String)
    (hcore : ∀ k ∈ CORE_SECTION_KEYS,
      dictGet? si k = none ∨ dictGet? si k = some "")
    (herr : hasKey si "error" = true)
    (hq : build_query kws si ≠ "") :
    degraded_parse si = true ∧
    retrieval_skip_reason (build_query kws si) (degraded_parse si) =
      some SkipReason.degradedParse := by
  have hc : has_core_content si = false := by
    rw [has_core_content, List.any_eq_false]
    intro k hk
    rcases hcore k hk with h | h <;> simp [truthy, h]
  have hd : degraded_parse si = true := by
    rw [degraded_parse, hc]
    simp [herr]
  refine ⟨hd, ?_⟩
  rw [retrieval_skip_reason, if_neg hq, hd]
  rfl

/-- Witness for the amended C1: every core section empty, `error` present,
title usable, a single key term; the skip reason is `degraded parse`. -/
theorem skip_reason_degraded_when_query_witness :
    degraded_parse siAllEmptyTitled = true ∧
    retrieval_skip_reason (build_query ["transformer"] siAllEmptyTitled)
        (degraded_parse siAllEmptyTitled) = some SkipReason.degradedParse :=
  skip_reason_degraded_when_query siAllEmptyTitled ["transformer"]
    (by decide) (by decide) (by decide)

/-! ## C2: the missing debug helper aborts every usable request -/

/-- C2: `_generate_review_internal` calls
`paper_analyzer.debug_core_content_check` right after emitting the stage-1
completion message, but `PaperAnalyzer` defines no such method (only
`has_core_content` exists).  For every usable parsed record and every
collaborator behaviour the trace is therefore the optional parse warning,
the stage-1 message, and one generic process-failure message: no stage-2
(key terms), stage-3 (retrieval, in any variant), stage-4 (analysis),
stage-5 (evaluation) or stage-6 (report) message ever occurs, and the wire
stream is those content frames followed by the terminal frame. -/
theorem missing_debug_method_aborts_pipeline (si : StructuredInfo)
    (o : Oracles)
    (husable : ¬(hasKey si "error" = true ∧ dictGetD si "raw_text" "" = "")) :
    ("debug_core_content_check" ∉ paperAnalyzerMethods ∧
      "has_core_content" ∈ paperAnalyzerMethods) ∧
    internal_post_parse si o =
      (if hasKey si "error" = true then [Msg.pdfWarning (dictGetD si "error" "")]
       else []) ++ [Msg.step1, Msg.processFailure attributeErrorMsg] ∧
    Msg.step2 ∉ internal_post_parse si o ∧
    (∀ n, Msg.step3 n ∉ internal_post_parse si o) ∧
    Msg.step3SkipDegraded ∉ internal_post_parse si o ∧
    Msg.step3SkipNoQuery ∉ internal_post_parse si o ∧
    Msg.step4 ∉ internal_post_parse si o ∧
    Msg.step5 ∉ internal_post_parse si o ∧
    Msg.step6 ∉ internal_post_parse si o ∧
    (∀ ts : List Nat, (∀ t ∈ ts, t ≤ REVIEW_TIMEOUT) →
      (internal_post_parse si o).length ≤ ts.length →
      generate_review_stream REVIEW_TIMEOUT
          (ts.zip (internal_post_parse si o)) none =
        (internal_post_parse si o).map Frame.content ++ [Frame.done]) := by
  have hcontains :
      paperAnalyzerMethods.contains "debug_core_content_check" = false := by
    decide
  have heq : internal_post_parse si o =
      (if hasKey si "error" = true then [Msg.pdfWarning (dictGetD si "error" "")]
       else []) ++ [Msg.step1, Msg.processFailure attributeErrorMsg] := by
    rw [internal_post_parse, if_neg husable, hcontains]
    simp
  have hnotin : ∀ m : Msg, (∀ e, m ≠ Msg.pdfWarning e) → m ≠ Msg.step1 →
      m ≠ Msg.processFailure attributeErrorMsg →
      m ∉ internal_post_parse si o := by
    intro m hw h1 h2 hmem
    rw [heq] at hmem
    rcases List.mem_append.mp hmem with hmem | hmem
    · by_cases herr : hasKey si "error" = true
      · rw [if_pos herr] at hmem
        simp at hmem
        exact hw _ hmem
      · rw [if_neg herr] at hmem
        simp at hmem
    · simp at hmem
      rcases hmem with rfl | rfl
      · exact h1 rfl
      · exact h2 rfl
  refine ⟨⟨by decide, by decide⟩, heq, hnotin _ (fun e => nofun) nofun nofun,
    fun n => hnotin _ (fun e => nofun) nofun nofun,
    hnotin _ (fun e => nofun) nofun nofun, hnotin _ (fun e => nofun) nofun nofun,
    hnotin _ (fun e => nofun) nofun nofun, hnotin _ (fun e => nofun) nofun nofun,
    hnotin _ (fun e => nofun) nofun nofun, ?_⟩
  intro ts hts hlen
  have hwithin : ∀ x ∈ ts.zip (internal_post_parse si o), x.1 ≤ REVIEW_TIMEOUT := by
    intro x hx
    exact hts x.1 (List.of_mem_zip hx).1
  have hgrs := grs_append_within REVIEW_TIMEOUT
    (ts.zip (internal_post_parse si o)) [] none hwithin
  rw [List.append_nil] at hgrs
  rw [hgrs]
  have hsnd : (ts.zip (internal_post_parse si o)).map
      (fun x => Frame.content x.2) = (internal_post_parse si o).map Frame.content := by
    have : (fun x : Nat × Msg => Frame.content x.2) =
        Frame.content ∘ Prod.snd := rfl
    rw [this, ← List.map_map, List.map_snd_zip _ _ hlen]
  rw [hsnd]
  rfl

/-- Witness for C2: a usable record and trivial oracles; the post-parse trace
is the stage-1 message followed by the process-failure message. -/
theorem missing_debug_method_aborts_pipeline_witness :
    internal_post_parse siUsable oraclesTrivial =
      [Msg.step1, Msg.processFailure attributeErrorMsg] :=
  (missing_debug_method_aborts_pipeline siUsable oraclesTrivial
    (by decide)).2.1

/-! ## C6: fusion is a first-seen-wins dedup by identifier -/

theorem mergeAux_sublist (l : List Paper) (seen : List String) :
    (mergeAux l seen).Sublist l := by
  induction l generalizing seen with
  | nil => simp [mergeAux]
  | cons p ps ih =>
    unfold mergeAux
    by_cases h : dedupKey p ≠ "" ∧ dedupKey p ∉ seen
    · rw [if_pos h]
      exact (ih _).cons₂ p
    · rw [if_neg h]
      exact (ih _).cons p

theorem mergeAux_key_props (l : List Paper) (seen : List String) :
    ∀ p ∈ mergeAux l seen, dedupKey p ≠ "" ∧ dedupKey p ∉ seen := by
  induction l generalizing seen with
  | nil => simp [mergeAux]
  | cons q qs ih =>
    intro p hp
    unfold mergeAux at hp
    by_cases h : dedupKey q ≠ "" ∧ dedupKey q ∉ seen
    · rw [if_pos h] at hp
      rcases List.mem_cons.mp hp with rfl | hp
      · exact h
      · have hprops := ih _ p hp
        exact ⟨hprops.1, fun hmem => hprops.2 (List.mem_cons_of_mem _ hmem)⟩
    · rw [if_neg h] at hp
      exact ih _ p hp

theorem mergeAux_keys_nodup (l : List Paper) (seen : List String) :
    ((mergeAux l seen).map dedupKey).Nodup := by
  induction l generalizing seen with
  | nil => simp [mergeAux]
  | cons q qs ih =>
    unfold mergeAux
    by_cases h : dedupKey q ≠ "" ∧ dedupKey q ∉ seen
    · rw [if_pos h]
      simp only [List.map_cons]
      refine List.nodup_cons.mpr ⟨?_, ih _⟩
      intro hmem
      obtain ⟨p, hp, hkey⟩ := List.mem_map.mp hmem
      exact (mergeAux_key_props _ _ p hp).2
        (by rw [hkey]; exact List.mem_cons_self _ _)
    · rw [if_neg h]
      exact ih _

theorem mergeAux_complete (l : List Paper) (seen : List String) :
    ∀ p ∈ l, dedupKey p ≠ "" → dedupKey p ∉ seen →
      ∃ q ∈ mergeAux l seen, dedupKey q = dedupKey p := by
  induction l generalizing seen with
  | nil => simp
  | cons r rs ih =>
    intro p hp hne hnseen
    unfold mergeAux
    by_cases h : dedupKey r ≠ "" ∧ dedupKey r ∉ seen
    · rw [if_pos h]
      rcases List.mem_cons.mp hp with rfl | hp
      · exact ⟨p, List.mem_cons_self _ _, rfl⟩
      · by_cases hkey : dedupKey p = dedupKey r
        · exact ⟨r, List.mem_cons_self _ _, hkey.symm⟩
        · obtain ⟨q, hq, hkq⟩ := ih (dedupKey r :: seen) p hp hne (by
            intro hmem
            rcases List.mem_cons.mp hmem with hmem | hmem
            · exact hkey hmem
            · exact hnseen hmem)
          exact ⟨q, List.mem_cons_of_mem _ hq, hkq⟩
    · rw [if_neg h]
      rcases List.mem_cons.mp hp with rfl | hp
      · exact absurd ⟨hne, hnseen⟩ h
      · exact ih seen p hp hne hnseen

theorem mergeAux_first_seen (l : List Paper) (seen : List String) :
    ∀ p ∈ mergeAux l seen,
      l.find? (fun q => dedupKey q == dedupKey p) = some p := by
  induction l generalizing seen with
  | nil => simp [mergeAux]
  | cons r rs ih =>
    intro p hp
    unfold mergeAux at hp
    by_cases h : dedupKey r ≠ "" ∧ dedupKey r ∉ seen
    · rw [if_pos h] at hp
      rcases List.mem_cons.mp hp with rfl | hp
      · rw [List.find?_cons_of_pos _ (by simp)]
      · have hkp := (mergeAux_key_props _ _ p hp).2
        have hne : ¬(dedupKey r == dedupKey p) = true := by
          simp only [beq_iff_eq]
          intro hcontra
          exact hkp (by rw [← hcontra]; exact List.mem_cons_self _ _)
        rw [List.find?_cons_of_neg _ (by simpa using hne)]
        exact ih _ p hp
    · rw [if_neg h] at hp
      have hkp := mergeAux_key_props _ _ p hp
      have hne : dedupKey r ≠ dedupKey p := by
        intro hcontra
        push_neg at h
        have hrseen := h (by rw [hcontra]; exact hkp.1)
        rw [hcontra] at hrseen
        exact hkp.2 hrseen
      rw [List.find?_cons_of_neg _ (by simpa using hne)]
      exact ih _ p hp

/-- C6 (amended): for every family of branch result lists (visited in
submission order newest, highly-cited, relevant), the fused list is the
first-seen-wins union *of the entries that carry a non-empty identifier*
(stable `paperId`, else title): it is a subsequence of the concatenated
branches, no two of its entries share an identifier, every branch entry with
a non-empty identifier is represented, and each fused entry is exactly the
first branch entry bearing its identifier.  Entries with neither a
`paperId` nor a title are dropped. -/
theorem fused_union_dedup (newest cited relevant : List Paper) :
    (merge_and_deduplicate [newest, cited, relevant]).Sublist
      ([newest, cited, relevant] : List (List Paper)).flatten ∧
    ((merge_and_deduplicate [newest, cited, relevant]).map dedupKey).Nodup ∧
    (∀ p ∈ merge_and_deduplicate [newest, cited, relevant], dedupKey p ≠ "") ∧
    (∀ p ∈ ([newest, cited, relevant] : List (List Paper)).flatten,
      dedupKey p ≠ "" →
      ∃ q ∈ merge_and_deduplicate [newest, cited, relevant],
        dedupKey q = dedupKey p) ∧
    (∀ p ∈ merge_and_deduplicate [newest, cited, relevant],
      (([newest, cited, relevant] : List (List Paper)).flatten).find?
        (fun q => dedupKey q == dedupKey p) = some p) :=
  ⟨mergeAux_sublist _ _, mergeAux_keys_nodup _ _,
    fun p hp => (mergeAux_key_props _ _ p hp).1,
    fun p hp hne => mergeAux_complete _ _ p hp hne (by simp),
    mergeAux_first_seen _ _⟩

/-- C6 counterexample to the claim as stated: a branch entry with neither a
`paperId` nor a title is dropped from the fused list entirely, so the fused
list is not the union of all branch results. -/
theorem fused_drops_keyless_entry :
    merge_and_deduplicate [[keylessPaper], [], []] = [] ∧
    keylessPaper ∈ ([[keylessPaper], [], []] : List (List Paper)).flatten := by
  exact ⟨rfl, by decide⟩

/-! ## C8: total embedding failure keeps the fused order -/

theorem dotQ_zero_left (u v : Vec) (h : ∀ q ∈ u, q = 0) : dotQ u v = 0 := by
  induction u generalizing v with
  | nil => simp [dotQ]
  | cons a as ih =>
    cases v with
    | nil => simp [dotQ]
    | cons b bs =>
      have ha : a = 0 := h a (List.mem_cons_self _ _)
      have has : ∀ q ∈ as, q = 0 := fun q hq => h q (List.mem_cons_of_mem _ hq)
      have hrec := ih bs has
      simp only [dotQ, List.zip_cons_cons, List.map_cons, List.sum_cons] at *
      rw [ha, hrec]
      ring

theorem rerank_zero_bg (papers : List Paper) (v : Vec) (vs : List Vec)
    (nrm : Vec → ℚ) (hz : ∀ q ∈ v, q = 0)
    (hlen : vs.length = papers.length) :
    rerank_by_similarity true papers v (BatchEmb.vecs vs) nrm = papers := by
  cases papers with
  | nil => simp [rerank_by_similarity]
  | cons p ps =>
    unfold rerank_by_similarity
    rw [if_neg (by simp)]
    have hpairs : ∀ x ∈ (p :: ps).zip (vs.map (cosineSim nrm v)),
        Prod.snd x = 0 := by
      intro x hx
      have hs := (List.of_mem_zip hx).2
      obtain ⟨w, hw, hcw⟩ := List.mem_map.mp hs
      rw [← hcw]
      unfold cosineSim
      rw [dotQ_zero_left v w hz, zero_div]
    show (rerank_sort ((p :: ps).zip (vs.map (cosineSim nrm v)))).map Prod.fst =
      p :: ps
    rw [rerank_sort, sortDescBy_const Prod.snd hpairs, List.map_fst_zip]
    rw [List.length_map, hlen]

/-- C8 (amended): if the embedding collaborator fails entirely — the
background-embedding call raises, or it yields a zero-vector placeholder
while the candidate-embedding call raises or yields one vector per candidate
(all similarities then collapse to the same value) — the retrieval stage
returns the fused candidate list unchanged in order, truncated only by the
always-applied top-N cap (`MAX_TOTAL_PAPERS`, default 10); whenever the
fused list has at most N entries it is returned entirely unchanged.  The
stage never fails. -/
theorem embedding_failure_keeps_fused_order (newest cited relevant : List Paper)
    (bg : BgEmb) (pe : BatchEmb) (nrm : Vec → ℚ)
    (hfail : bg = BgEmb.raises ∨
      ∃ v, bg = BgEmb.vec v ∧ (∀ q ∈ v, q = 0) ∧
        (pe = BatchEmb.raises ∨ ∃ vs, pe = BatchEmb.vecs vs ∧
          vs.length = (merge_and_deduplicate [newest, cited, relevant]).length)) :
    hybrid_retrieve newest cited relevant true bg pe nrm MAX_TOTAL_PAPERS =
      (merge_and_deduplicate [newest, cited, relevant]).take MAX_TOTAL_PAPERS ∧
    ((merge_and_deduplicate [newest, cited, relevant]).length ≤ MAX_TOTAL_PAPERS →
      hybrid_retrieve newest cited relevant true bg pe nrm MAX_TOTAL_PAPERS =
        merge_and_deduplicate [newest, cited, relevant]) := by
  have hstep : hybridRerankStep (merge_and_deduplicate [newest, cited, relevant])
      true bg pe nrm = merge_and_deduplicate [newest, cited, relevant] := by
    rcases hfail with rfl | ⟨v, rfl, hz, hpe⟩
    · rfl
    · show (if 0 < v.length then _ else _) = _
      by_cases hvlen : 0 < v.length
      · rw [if_pos hvlen]
        rcases hpe with rfl | ⟨vs, rfl, hlen⟩
        · unfold rerank_by_similarity
          by_cases hplen :
              (merge_and_deduplicate [newest, cited, relevant]).length = 0
          · rw [if_pos (Or.inr hplen)]
          · rw [if_neg (by simp [hplen])]
        · exact rerank_zero_bg _ _ _ _ hz hlen
      · rw [if_neg hvlen]
  have hmain : hybrid_retrieve newest cited relevant true bg pe nrm
      MAX_TOTAL_PAPERS =
      (merge_and_deduplicate [newest, cited, relevant]).take MAX_TOTAL_PAPERS := by
    unfold hybrid_retrieve
    by_cases hempty : merge_and_deduplicate [newest, cited, relevant] = []
    · rw [if_pos hempty, hempty]
      rfl
    · rw [if_neg hempty, hstep]
  refine ⟨hmain, fun hle => ?_⟩
  rw [hmain, List.take_of_length_le hle]

/-- Witness for the amended C8: one fused candidate, a zero background
embedding, one candidate embedding; the stage returns the fused list
unchanged. -/
theorem embedding_failure_keeps_fused_order_witness :
    hybrid_retrieve [⟨some "w1", some "T", none⟩] [] [] true
        (BgEmb.vec [0, 0, 0]) (BatchEmb.vecs [[1, 2, 3]]) zeroNrm
        MAX_TOTAL_PAPERS = [⟨some "w1", some "T", none⟩] :=
  (embedding_failure_keeps_fused_order [⟨some "w1", some "T", none⟩] [] []
    (BgEmb.vec [0, 0, 0]) (BatchEmb.vecs [[1, 2, 3]]) zeroNrm
    (Or.inr ⟨[0, 0, 0], rfl, by decide, Or.inr ⟨[[1, 2, 3]], rfl, by decide⟩⟩)).2
    (by decide)

/-- C8 counterexample to the claim as stated: with eleven fused candidates
and a completely failing embedding collaborator, the stage returns only the
first ten — fused-list membership is not preserved, because the top-N cap
(default 10) applies regardless of the embedding outcome. -/
theorem hybrid_truncates_fused :
    (merge_and_deduplicate [elevenPapers, [], []]).length = 11 ∧
    (⟨some "p10", none, none⟩ : Paper) ∈
      merge_and_deduplicate [elevenPapers, [], []] ∧
    (⟨some "p10", none, none⟩ : Paper) ∉
      hybrid_retrieve elevenPapers [] [] true BgEmb.raises BatchEmb.raises
        zeroNrm MAX_TOTAL_PAPERS := by
  refine ⟨by decide, by decide, by decide⟩

/-! ## C10: shape of the key-term lists -/

theorem lowerChar_not_upper (c : Char) : isUpperAscii (lowerChar c) = false := by
  unfold lowerChar
  by_cases h : 65 ≤ c.toNat ∧ c.toNat ≤ 90
  · rw [if_pos h]
    obtain ⟨h1, h2⟩ := h
    set n := c.toNat with hn
    interval_cases n <;> decide
  · rw [if_neg h]
    simp only [isUpperAscii, Bool.and_eq_false_iff, decide_eq_false_iff_not]
    omega

theorem not_upper_of_mem_lowerChars {c : Char} {l : List Char}
    (h : c ∈ lowerChars l) : isUpperAscii c = false := by
  obtain ⟨a, _, rfl⟩ := List.mem_map.mp h
  exact lowerChar_not_upper a

theorem mem_of_mem_trimChars {c : Char} {l : List Char}
    (h : c ∈ trimChars l) : c ∈ l := by
  unfold trimChars at h
  rw [List.mem_reverse] at h
  have h2 := (List.dropWhile_sublist _).subset h
  rw [List.mem_reverse] at h2
  exact (List.dropWhile_sublist _).subset h2

theorem mem_of_mem_stripNonWordEnds {c : Char} {l : List Char}
    (h : c ∈ stripNonWordEnds l) : c ∈ l := by
  unfold stripNonWordEnds at h
  rw [List.mem_reverse] at h
  have h2 := (List.dropWhile_sublist _).subset h
  rw [List.mem_reverse] at h2
  exact (List.dropWhile_sublist _).subset h2

theorem runsAux_chars (p : Char → Bool) (l : List Char) :
    ∀ acc, ∀ r ∈ runsAux p l acc, ∀ c ∈ r, c ∈ l ∨ c ∈ acc := by
  induction l with
  | nil =>
    intro acc r hr c hc
    unfold runsAux at hr
    by_cases hacc : acc.isEmpty
    · rw [if_pos hacc] at hr
      simp at hr
    · rw [if_neg hacc] at hr
      simp only [List.mem_singleton] at hr
      subst hr
      exact Or.inr (List.mem_reverse.mp hc)
  | cons d ds ih =>
    intro acc r hr c hc
    unfold runsAux at hr
    by_cases hd : p d
    · rw [if_pos hd] at hr
      rcases ih (d :: acc) r hr c hc with h | h
      · exact Or.inl (List.mem_cons_of_mem _ h)
      · rcases List.mem_cons.mp h with rfl | h
        · exact Or.inl (List.mem_cons_self _ _)
        · exact Or.inr h
    · rw [if_neg hd] at hr
      by_cases hacc : acc.isEmpty
      · rw [if_pos hacc] at hr
        rcases ih [] r hr c hc with h | h
        · exact Or.inl (List.mem_cons_of_mem _ h)
        · simp at h
      · rw [if_neg hacc] at hr
        rcases List.mem_cons.mp hr with rfl | hr
        · exact Or.inr (List.mem_reverse.mp hc)
        · rcases ih [] r hr c hc with h | h
          · exact Or.inl (List.mem_cons_of_mem _ h)
          · simp at h

theorem runsOf_chars {p : Char → Bool} {l : List Char} {r : List Char}
    (hr : r ∈ runsOf p l) {c : Char} (hc : c ∈ r) : c ∈ l := by
  rcases runsAux_chars p l [] r hr c hc with h | h
  · exact h
  · simp at h

theorem findall_lower (minLen : Nat) (l : List Char) :
    ∀ w ∈ findallAlphaRuns minLen (lowerChars l), ∀ c ∈ w,
      isUpperAscii c = false := by
  intro w hw c hc
  exact not_upper_of_mem_lowerChars
    (runsOf_chars (List.mem_filter.mp hw).1 hc)

theorem fallbackKws4_lower (si : StructuredInfo) :
    ∀ w ∈ fallbackKws4 si, ∀ c ∈ w, isUpperAscii c = false := by
  intro w hw c hc
  unfold fallbackKws4 at hw
  rcases List.mem_append.mp hw with hw | hw
  · unfold fallbackKws3 at hw
    rcases List.mem_append.mp hw with hw | hw
    · unfold fallbackKws2 at hw
      rcases List.mem_append.mp hw with hw | hw
      · unfold fallbackKws1 at hw
        by_cases hk : hasKey si "Keywords" = true
        · rw [if_pos hk] at hw
          have hw2 := List.mem_of_mem_take hw
          obtain ⟨kw, _, rfl⟩ := List.mem_map.mp hw2
          exact not_upper_of_mem_lowerChars hc
        · rw [if_neg hk] at hw
          simp at hw
      · by_cases ha : hasKey si "Abstract" = true
        · rw [if_pos ha] at hw
          have hw2 := mem_sortDescBy.mp (List.mem_of_mem_take hw)
          exact findall_lower 4 _ w (List.mem_filter.mp hw2).1 c hc
        · rw [if_neg ha] at hw
          simp at hw
    · by_cases ht : (fallbackKws2 si).length < 2 ∧ hasKey si "Title" = true
      · rw [if_pos ht] at hw
        exact findall_lower 4 _ w
          (List.mem_filter.mp (List.mem_of_mem_take hw)).1 c hc
      · rw [if_neg ht] at hw
        simp at hw
  · by_cases ha : (fallbackKws3 si).length < 2 ∧ hasKey si "Abstract" = true
    · rw [if_pos ha] at hw
      exact findall_lower 3 _ w
        (List.mem_filter.mp (List.mem_of_mem_take hw)).1 c hc
    · rw [if_neg ha] at hw
      simp at hw

theorem dedupFirstAux_nodup {α : Type} [DecidableEq α] (l : List α) :
    ∀ seen, (dedupFirstAux l seen).Nodup ∧
      ∀ x ∈ dedupFirstAux l seen, x ∉ seen := by
  induction l with
  | nil => intro seen; simp [dedupFirstAux]
  | cons y ys ih =>
    intro seen
    unfold dedupFirstAux
    by_cases h : y ∈ seen
    · rw [if_pos h]
      exact ih seen
    · rw [if_neg h]
      obtain ⟨hnd, hns⟩ := ih (y :: seen)
      refine ⟨List.nodup_cons.mpr ⟨?_, hnd⟩, ?_⟩
      · intro hmem
        exact hns y hmem (List.mem_cons_self _ _)
      · intro x hx
        rcases List.mem_cons.mp hx with rfl | hx
        · exact h
        · exact fun hxs => hns x hx (List.mem_cons_of_mem _ hxs)

theorem dedupFirstAux_subset {α : Type} [DecidableEq α] (l : List α) :
    ∀ seen, ∀ x ∈ dedupFirstAux l seen, x ∈ l := by
  induction l with
  | nil => intro seen; simp [dedupFirstAux]
  | cons y ys ih =>
    intro seen x hx
    unfold dedupFirstAux at hx
    by_cases h : y ∈ seen
    · rw [if_pos h] at hx
      exact List.mem_cons_of_mem _ (ih seen x hx)
    · rw [if_neg h] at hx
      rcases List.mem_cons.mp hx with rfl | hx
      · exact List.mem_cons_self _ _
      · exact List.mem_cons_of_mem _ (ih _ x hx)

theorem string_mk_injective : Function.Injective String.mk := by
  intro a b h
  cases h
  rfl

/-- Shared facts about the heuristic fallback extractor: at most four terms,
no duplicates, all lower-cased. -/
theorem fallback_keywords_props (si : StructuredInfo) :
    (_extract_fallback_keywords si).length ≤ 4 ∧
    (_extract_fallback_keywords si).Nodup ∧
    ∀ t ∈ _extract_fallback_keywords si, noUpperStr t = true := by
  refine ⟨?_, ?_, ?_⟩
  · rw [_extract_fallback_keywords, List.length_map]
    exact List.length_take_le _ _
  · rw [_extract_fallback_keywords]
    exact List.Nodup.map string_mk_injective
      (((dedupFirstAux_nodup (fallbackKws4 si) []).1).sublist
        (List.take_sublist _ _))
  · intro t ht
    rw [_extract_fallback_keywords] at ht
    obtain ⟨w, hw, rfl⟩ := List.mem_map.mp ht
    have hw2 := dedupFirstAux_subset (fallbackKws4 si) [] w
      (List.mem_of_mem_take hw)
    rw [noUpperStr, List.all_eq_true]
    intro c hc
    rw [fallbackKws4_lower si w hw2 c hc]
    rfl

theorem processKw_lower (kw w : List Char) (h : processKw kw = some w) :
    ∀ c ∈ w, isUpperAscii c = false := by
  intro c hc
  simp only [processKw] at h
  split_ifs at h with h1 h2
  · rw [Option.some.injEq] at h
    subst h
    exact not_upper_of_mem_lowerChars
      (mem_of_mem_trimChars
        ((List.mem_filter.mp
          (mem_of_mem_trimChars (mem_of_mem_stripNonWordEnds hc))).1))

/-- C10 (amended): every key-term list produced by either extractor is an
ordered list of at most four lower-cased terms; the heuristic fallback
extractor additionally deduplicates, while the inference-based extractor
does not deduplicate (see the counterexample). -/
theorem keyterm_lists_bounded_lowercase (response : String)
    (si : StructuredInfo) :
    (extract_keywords response si).length ≤ 4 ∧
    (∀ t ∈ extract_keywords response si, noUpperStr t = true) ∧
    (_extract_fallback_keywords si).length ≤ 4 ∧
    (_extract_fallback_keywords si).Nodup ∧
    (∀ t ∈ _extract_fallback_keywords si, noUpperStr t = true) := by
  obtain ⟨hl, hn, hu⟩ := fallback_keywords_props si
  refine ⟨?_, ?_, hl, hn, hu⟩
  · simp only [extract_keywords]
    split_ifs
    · exact hl
    · rw [List.length_map]
      exact List.length_take_le _ _
    · rw [List.length_map]
      exact List.length_take_le _ _
    · exact hl
    · rw [List.length_map]
      exact List.length_take_le _ _
    · rw [List.length_map]
      exact List.length_take_le _ _
  · intro t ht
    simp only [extract_keywords] at ht
    split_ifs at ht
    · exact hu t ht
    · obtain ⟨w, hw, rfl⟩ := List.mem_map.mp ht
      obtain ⟨kw, _, hpk⟩ := List.mem_filterMap.mp (List.mem_of_mem_take hw)
      rw [noUpperStr, List.all_eq_true]
      intro c hc
      rw [processKw_lower kw w hpk c hc]
      rfl
    · obtain ⟨w, hw, rfl⟩ := List.mem_map.mp ht
      obtain ⟨kw, _, hpk⟩ := List.mem_filterMap.mp (List.mem_of_mem_take hw)
      rw [noUpperStr, List.all_eq_true]
      intro c hc
      rw [processKw_lower kw w hpk c hc]
      rfl
    · exact hu t ht
    · obtain ⟨w, hw, rfl⟩ := List.mem_map.mp ht
      obtain ⟨kw, _, hpk⟩ := List.mem_filterMap.mp (List.mem_of_mem_take hw)
      rw [noUpperStr, List.all_eq_true]
      intro c hc
      rw [processKw_lower kw w hpk c hc]
      rfl
    · obtain ⟨w, hw, rfl⟩ := List.mem_map.mp ht
      obtain ⟨kw, _, hpk⟩ := List.mem_filterMap.mp (List.mem_of_mem_take hw)
      rw [noUpperStr, List.all_eq_true]
      intro c hc
      rw [processKw_lower kw w hpk c hc]
      rfl

set_option maxRecDepth 8000 in
/-- C10 counterexample: the inference-based extractor does not deduplicate —
the reply `transformer, transformer` yields a key-term list with a
duplicate. -/
theorem extract_keywords_duplicate :
    extract_keywords "transformer, transformer" [] =
      ["transformer", "transformer"] ∧
    ¬(extract_keywords "transformer, transformer" []).Nodup := by
  exact ⟨by decide, by decide⟩
